import Mathlib

/-
Verification development for the Task Hierarchy Parser and Status Resolution
Engine of the sdd-framework repository.

The engine's own implementation files (src/tasks/task-tracker.ts,
src/tasks/task-group-resolver.ts, src/verification/task-verifier.ts) are not
part of the available sources; only their property tests, re-exports and API
documentation are.  The definitions below therefore model the engine from the
specification, following the behaviour pinned by the repository's own
property tests (which build concrete tasks.md documents and assert the
engine's output on them).  A document is modelled as a list of lines, each
line a list of characters, exactly as the TypeScript code manipulates
`content.split('\n')`.
-/

set_option maxRecDepth 8000

namespace Sdd

/-- Task life-cycle status: the five values of the engine's `TaskStatus`. -/
inductive TaskStatus
  | not_started
  | in_progress
  | completed
  | failed
  | queued
deriving DecidableEq

/-- Aggregate status (`TaskGroupStatus`): the five task statuses plus the
mixed aggregate value (spelled `partial` in the source, `partly` here because
that word is reserved). -/
inductive TaskGroupStatus
  | not_started
  | in_progress
  | completed
  | failed
  | queued
  | partly
deriving DecidableEq

/-- Status Codec, write direction (`statusToChar`). -/
def statusToChar : TaskStatus → Char
  | .not_started => ' '
  | .in_progress => '-'
  | .completed => 'x'
  | .failed => '!'
  | .queued => '~'

/-- Status Codec, read direction (`charToStatus`): exactly the five valid
markers are accepted, any other character is a parse error for that line. -/
def charToStatus (c : Char) : Option TaskStatus :=
  if c = ' ' then some .not_started
  else if c = 'x' then some .completed
  else if c = '-' then some .in_progress
  else if c = '!' then some .failed
  else if c = '~' then some .queued
  else none

/-- Characters allowed inside a dot-separated numeric identifier. -/
def isIdChar (c : Char) : Bool := c.isDigit || decide (c = '.')

/-- Recogniser for `\d+(\.\d+)*`; the Boolean argument records whether the
previous character was a digit (a dot is only legal after a digit, and the
identifier must end in a digit). -/
def validIdAux : List Char → Bool → Bool
  | [], prev => prev
  | c :: rest, prev =>
    if c.isDigit then validIdAux rest true
    else if c = '.' then prev && validIdAux rest false
    else false

/-- A dot-separated numeric identifier such as `1.2.3`. -/
def validId (s : List Char) : Bool := validIdAux s false

/-- One parsed task line: indentation width, marker character, optional flag
(asterisk after the bracket), identifier and label. -/
structure TaskLine where
  indent : Nat
  marker : Char
  optFlag : Bool
  id : List Char
  label : List Char
deriving DecidableEq

/-- Was the optional asterisk present right after the closing bracket? -/
def optOf (rest : List Char) : Bool := decide (rest.head? = some '*')

/-- The characters after the optional asterisk. -/
def afterOpt (rest : List Char) : List Char := if optOf rest then rest.tail else rest

/-- The characters from the start of the identifier on. -/
def idStart (rest : List Char) : List Char :=
  (afterOpt rest).dropWhile (fun c => decide (c = ' '))

/-- The identifier characters of the tail of a task line. -/
def idcOf (rest : List Char) : List Char := (idStart rest).takeWhile isIdChar

/-- The characters after the identifier. -/
def afterId (rest : List Char) : List Char := (idStart rest).dropWhile isIdChar

/-- The label of the tail of a task line. -/
def lblOf (rest : List Char) : List Char :=
  (afterId rest).tail.dropWhile (fun c => decide (c = ' '))

/-- Part of the Line Parser after the `- [m]` head of a task line has been
consumed: optional `*`, optional spaces, identifier, at least one space, and
a non-empty label, mirroring the task-line pattern
`^(\s*)- \[(.)\](\*?)\s*(\d+(?:\.\d+)*)\s+(.+)$`. -/
def parseTail (m : Char) (rest : List Char) (n : Nat) : Option TaskLine :=
  if validId (idcOf rest) ∧ (afterId rest).head? = some ' ' then
    if lblOf rest = [] then none
    else some ⟨n, m, optOf rest, idcOf rest, lblOf rest⟩
  else none

/-- Line Parser on the part of a line after its indentation. -/
def parseBody : List Char → Nat → Option TaskLine
  | '-' :: ' ' :: '[' :: m :: ']' :: rest, n => parseTail m rest n
  | _, _ => none

/-- Line Parser: consume leading spaces counting the indentation width, then
parse the checkbox body. -/
def parseTaskLineAux : List Char → Nat → Option TaskLine
  | [], _ => none
  | c :: rest, n =>
    if c = ' ' then parseTaskLineAux rest (n + 1)
    else parseBody (c :: rest) n

/-- Line Parser entry point: recognise one line as a task entry. -/
def parseTaskLine (l : List Char) : Option TaskLine := parseTaskLineAux l 0

/-- Marker surgery on the body of a task line: rewrite exactly the marker
character inside the brackets, leaving every other byte in place. -/
def markerBody : List Char → Char → List Char
  | '-' :: ' ' :: '[' :: _ :: ']' :: rest, c => '-' :: ' ' :: '[' :: c :: ']' :: rest
  | l, _ => l

/-- Marker surgery: skip the indentation, then rewrite the marker. -/
def setMarkerAux : List Char → Char → List Char
  | [], _ => []
  | a :: rest, c =>
    if a = ' ' then ' ' :: setMarkerAux rest c
    else markerBody (a :: rest) c

/-- Transition Engine's line-level edit: replace only the marker character of
a task line. -/
def setMarker (l : List Char) (c : Char) : List Char := setMarkerAux l c

/-- Identifier of a line when it parses as a task line. -/
def lineId (l : List Char) : Option (List Char) := (parseTaskLine l).map (fun tl => tl.id)

/-- Does this line parse as a task line with the given identifier? -/
def lineHasId (l : List Char) (tid : List Char) : Bool := decide (lineId l = some tid)

/-- Status of one line as the Transition Engine reads it. -/
def lineStatus (l : List Char) : Option TaskStatus :=
  (parseTaskLine l).bind (fun tl => charToStatus tl.marker)

/-- Convenience: a document line from a string literal. -/
def lineOf (s : String) : List Char := s.toList

/-- TaskTracker `parseTaskStatus`: locate the line with the given task
identifier and read its marker through the codec. -/
def parseTaskStatus (doc : List (List Char)) (tid : List Char) : Option TaskStatus :=
  match doc.find? (fun l => lineHasId l tid) with
  | some l => lineStatus l
  | none => none

/-- TaskTracker `replaceTaskStatus`: rewrite only the marker character of the
line whose identifier equals `tid`; every other line is untouched. -/
def replaceTaskStatus : List (List Char) → List Char → TaskStatus → List (List Char)
  | [], _, _ => []
  | l :: rest, tid, st =>
    if lineHasId l tid then setMarker l (statusToChar st) :: rest
    else l :: replaceTaskStatus rest tid st

/-- Is `tid` a strict descendant of `gid` in the dot-separated hierarchy
(`gid` followed by a dot is an initial segment of `tid`)? -/
def underId (tid gid : List Char) : Bool := (gid ++ ['.']).isPrefixOf tid

/-- A task identifier is a leaf in a document when no task line of the
document carries an identifier strictly below it. -/
def isLeafIn (doc : List (List Char)) (tid : List Char) : Bool :=
  !(doc.any (fun l =>
    match parseTaskLine l with
    | some tl2 => underId tl2.id tid
    | none => false))

/-- One line of the `queueGroupTasks` edit: a leaf task under the group whose
marker is the space (not_started) gets the queued marker; everything else is
untouched. -/
def queueLine (doc : List (List Char)) (gid : List Char) (l : List Char) : List Char :=
  match parseTaskLine l with
  | some tl =>
    if underId tl.id gid ∧ isLeafIn doc tl.id ∧ tl.marker = ' ' then setMarker l '~' else l
  | none => l

/-- TaskTracker `queueGroupTasks`, modelled from the spec: every leaf task
under the named group currently in not_started gets its marker set to
queued; tasks in any other status are left completely untouched.  (The
implementation file src/tasks/task-tracker.ts is not among the sources; the
behaviour is pinned by its property test.) -/
def queueGroupTasks (doc : List (List Char)) (gid : List Char) : List (List Char) :=
  doc.map (queueLine doc gid)

/-- One line of the `handleTaskFailure` edit, given the index `fi` of the
failed task's line and the current index `i`: the group's own line and the
failed task's line get the failed marker; a queued descendant of the group
strictly after the failure point reverts to not_started; everything else is
untouched. -/
def failLine (gid fid : List Char) (fi i : Nat) (l : List Char) : List Char :=
  match parseTaskLine l with
  | some tl =>
    if tl.id = gid then setMarker l '!'
    else if tl.id = fid then setMarker l '!'
    else if underId tl.id gid ∧ fi < i ∧ tl.marker = '~' then setMarker l ' '
    else l
  | none => l

/-- Apply `failLine` to every line, tracking the line index. -/
def failLines (gid fid : List Char) (fi : Nat) : Nat → List (List Char) → List (List Char)
  | _, [] => []
  | i, l :: rest => failLine gid fid fi i l :: failLines gid fid fi (i + 1) rest

/-- Index of the first line satisfying a predicate. -/
def firstIdx (p : List Char → Bool) : List (List Char) → Option Nat
  | [] => none
  | l :: rest => if p l then some 0 else (firstIdx p rest).map (fun i => i + 1)

/-- TaskTracker `handleTaskFailure`, modelled from the spec: set the named
group's own marker to failed, set the identified task's marker to failed,
and revert to not_started every queued task of the group after the failure
point; tasks before the failure point keep their status.  (The
implementation file src/tasks/task-tracker.ts is not among the sources; the
behaviour is pinned by its property test.) -/
def handleTaskFailure (doc : List (List Char)) (gid fid : List Char) : List (List Char) :=
  match firstIdx (fun l => lineHasId l fid) doc with
  | some fi => failLines gid fid fi 0 doc
  | none => doc

/-- Resolver's reading of a marker character: the five valid markers map to
their status, anything else is treated as not_started (the mapping used
throughout the repository's consumer-side parsers). -/
def statusOfChar (c : Char) : TaskStatus := (charToStatus c).getD .not_started

/-- Depth of a task line from its indentation width: zero spaces is depth 1,
two spaces depth 2, four spaces depth 3. -/
def TaskLine.depth (tl : TaskLine) : Nat := tl.indent / 2 + 1

/-- All task lines of a document, in document order. -/
def taskLines (doc : List (List Char)) : List TaskLine := doc.filterMap parseTaskLine

/-- Split a token list into the tokens before the first token of depth `d`
and the list of segments, one per depth-`d` token, each segment holding the
tokens that follow its header up to the next depth-`d` token. -/
def segByDepth (d : Nat) : List TaskLine → List TaskLine × List (TaskLine × List TaskLine)
  | [] => ([], [])
  | t :: rest =>
    let p := segByDepth d rest
    if t.depth = d then ([], (t, p.1) :: p.2)
    else (t :: p.1, p.2)

/-- A parsed task as the Aggregation Engine sees it. -/
structure ParsedTask where
  id : List Char
  label : List Char
  depth : Nat
  status : TaskStatus
  isBlocked : Bool
deriving DecidableEq

/-- The depth-3 children inside one subgroup segment. -/
def childrenOf (seg : List TaskLine) : List TaskLine :=
  seg.filter (fun t => decide (t.depth = 3))

/-- Blocking rule of the Aggregation Engine: walk the children of one
subgroup in document order, carrying whether a failed task has already been
seen; each child is blocked exactly when one was, and a failed child flips
the flag for its successors. -/
def markBlocked : List TaskLine → Bool → List ParsedTask
  | [], _ => []
  | t :: rest, b =>
    ⟨t.id, t.label, t.depth, statusOfChar t.marker, b⟩ ::
      markBlocked rest (b || decide (statusOfChar t.marker = .failed))

/-- Queued constituents count as not_started for the third aggregation
step. -/
def normalizeStatus : TaskStatus → TaskStatus
  | .queued => .not_started
  | s => s

/-- Aggregation Engine precedence rule, as the resolver computes it
(mirroring the oracle `expectedAggregate` of the repository's property
test): normalize queued to not_started, then failed beats in_progress beats
the completed/mixed/not_started distinction. -/
def aggregateStatuses (l : List TaskStatus) : TaskGroupStatus :=
  let n := l.map normalizeStatus
  if TaskStatus.failed ∈ n then .failed
  else if TaskStatus.in_progress ∈ n then .in_progress
  else if TaskStatus.completed ∈ n ∧ TaskStatus.not_started ∉ n then .completed
  else if TaskStatus.completed ∈ n ∧ TaskStatus.not_started ∈ n then .partly
  else .not_started

/-- The aggregation precedence rule exactly as the specification words it:
failed first, then in_progress, and only then normalize queued constituents
to not_started and decide between completed, the mixed value and
not_started. -/
def specAggregate (l : List TaskStatus) : TaskGroupStatus :=
  if TaskStatus.failed ∈ l then .failed
  else if TaskStatus.in_progress ∈ l then .in_progress
  else
    let n := l.map normalizeStatus
    if TaskStatus.completed ∈ n ∧ TaskStatus.not_started ∉ n then .completed
    else if TaskStatus.completed ∈ n ∧ TaskStatus.not_started ∈ n then .partly
    else .not_started

/-- Folding of an aggregate back into a single task status for the parent
aggregation step: the mixed value contributes in_progress, every other value
contributes itself (the switch of the repository's property test). -/
def effectiveOfAggregate : TaskGroupStatus → TaskStatus
  | .completed => .completed
  | .failed => .failed
  | .in_progress => .in_progress
  | .partly => .in_progress
  | .queued => .queued
  | .not_started => .not_started

/-- Effective status of one depth-2 task from its segment: with no depth-3
children it is the task's own raw status; with children it is the aggregate
of the children folded through `effectiveOfAggregate`. -/
def effStatus (hs : TaskLine × List TaskLine) : TaskStatus :=
  let cs := childrenOf hs.2
  if cs = [] then statusOfChar hs.1.marker
  else effectiveOfAggregate (aggregateStatuses (cs.map (fun t => statusOfChar t.marker)))

/-- A subgroup as the Aggregation Engine sees it. -/
structure TaskSubgroup where
  id : List Char
  label : List Char
  tasks : List ParsedTask
  status : TaskGroupStatus
  totalTasks : Nat
  completedTasks : Nat
  failedTasks : Nat
deriving DecidableEq

/-- A group as the Aggregation Engine sees it. -/
structure TaskGroup where
  id : List Char
  label : List Char
  tasks : List ParsedTask
  subgroups : List TaskSubgroup
  status : TaskGroupStatus
  totalTasks : Nat
  completedTasks : Nat
  failedTasks : Nat
deriving DecidableEq

/-- Build one subgroup from a depth-2 header and its segment: children are
the depth-3 tokens, the blocking walk starts unblocked, counts and status
are taken over the children's raw statuses. -/
def mkSubgroup (hs : TaskLine × List TaskLine) : TaskSubgroup :=
  let cs := childrenOf hs.2
  let sts := cs.map (fun t => statusOfChar t.marker)
  { id := hs.1.id
    label := hs.1.label
    tasks := markBlocked cs false
    status := aggregateStatuses sts
    totalTasks := cs.length
    completedTasks := sts.countP (fun s => decide (s = .completed))
    failedTasks := sts.countP (fun s => decide (s = .failed)) }

/-- Build one group from a depth-1 header and its segment: one subgroup per
depth-2 token (the repository's counting test pins that a depth-2 line
without depth-3 children still yields a subgroup), the flat task list holds
the depth-2 tasks and their depth-3 children in document order, and counts
and status are taken over the effective statuses of the depth-2 tasks. -/
def mkGroup (hs : TaskLine × List TaskLine) : TaskGroup :=
  let subs := (segByDepth 2 hs.2).2
  let effs := subs.map effStatus
  { id := hs.1.id
    label := hs.1.label
    tasks := (subs.map (fun s =>
      ⟨s.1.id, s.1.label, s.1.depth, statusOfChar s.1.marker, false⟩ ::
        markBlocked (childrenOf s.2) false)).flatten
    subgroups := subs.map mkSubgroup
    status := aggregateStatuses effs
    totalTasks := subs.length
    completedTasks := effs.countP (fun s => decide (s = .completed))
    failedTasks := effs.countP (fun s => decide (s = .failed)) }

/-- TaskGroupResolver `parseGroups`, modelled from the spec: parse every
line, split the task lines at depth-1 headers, and build one group per
header.  (The implementation file src/tasks/task-group-resolver.ts is not
among the sources; the behaviour is pinned by its property tests.) -/
def parseGroups (doc : List (List Char)) : List TaskGroup :=
  ((segByDepth 1 (taskLines doc)).2).map mkGroup

/-- The executable leaf tasks of a group in document order: the children of
its subgroups, with their blocking flags. -/
def execTasks (g : TaskGroup) : List ParsedTask :=
  (g.subgroups.map (fun sg => sg.tasks)).flatten

/-- Eligibility of a task for immediate execution as a fresh task. -/
def eligibleNotStarted (t : ParsedTask) : Bool :=
  !t.isBlocked && decide (t.status = TaskStatus.not_started)

/-- Eligibility of a task for immediate execution as a queued task. -/
def eligibleQueued (t : ParsedTask) : Bool :=
  !t.isBlocked && decide (t.status = TaskStatus.queued)

/-- TaskGroupResolver `findNextExecutableTask`, modelled from the spec: scan
the group's tasks in document order skipping blocked ones, preferring a
not_started task, falling back to the first eligible queued task. -/
def findNextExecutableTask (g : TaskGroup) : Option ParsedTask :=
  match (execTasks g).find? eligibleNotStarted with
  | some t => some t
  | none => (execTasks g).find? eligibleQueued

/-- The verification layer's marker reading (helper `statusCharToTaskStatus`
of the repository's verification property tests): the queued marker and any
unknown character read as not_started. -/
def statusCharToTaskStatus (c : Char) : TaskStatus :=
  if c = ' ' then .not_started
  else if c = 'x' then .completed
  else if c = '-' then .in_progress
  else if c = '!' then .failed
  else if c = '~' then .not_started
  else .not_started

/-- TaskVerifier's lightweight status read, modelled from the spec: the
verification layer re-reads the document with its own parse and interprets
markers through `statusCharToTaskStatus`.  (The implementation file
src/verification/task-verifier.ts is not among the sources; the behaviour is
pinned by its property test.) -/
def verifierTaskStatus (doc : List (List Char)) (tid : List Char) : Option TaskStatus :=
  match doc.find? (fun l => lineHasId l tid) with
  | some l => (parseTaskLine l).map (fun tl => statusCharToTaskStatus tl.marker)
  | none => none

/-- Does the verification layer's task-status check pass for the expected
status? -/
def verifierStatusCheckPasses (doc : List (List Char)) (tid : List Char)
    (expected : TaskStatus) : Bool :=
  decide (verifierTaskStatus doc tid = some expected)


/-!  Concrete demonstration documents used by the counterexamples and the
witnesses below. -/

/-- A subgroup with two failed children. -/
def docTwoFailures : List (List Char) :=
  [lineOf (r"- [ ] 1 G"), lineOf (r"  - [ ] 1.1 S"),
   lineOf (r"    - [!] 1.1.1 a"), lineOf (r"    - [!] 1.1.2 b")]

/-- A subgroup with a single failure followed by a fresh task. -/
def docOneFailure : List (List Char) :=
  [lineOf (r"- [ ] 1 G"), lineOf (r"  - [ ] 1.1 S"),
   lineOf (r"    - [!] 1.1.1 a"), lineOf (r"    - [ ] 1.1.2 b")]

/-- The failure-cascade scenario of the specification: a completed task, the
task about to fail, and a queued task. -/
def docCascade : List (List Char) :=
  [lineOf (r"- [ ] 1 Group"), lineOf (r"  - [ ] 1.1 Sub"),
   lineOf (r"    - [x] 1.1.1 a"), lineOf (r"    - [-] 1.1.2 b"),
   lineOf (r"    - [~] 1.1.3 c")]

/-- The queueing scenario of the specification: a not_started leaf next to a
completed one. -/
def docQueueMix : List (List Char) :=
  [lineOf (r"- [ ] 1 Group"), lineOf (r"  - [ ] 1.1 Sub"),
   lineOf (r"    - [ ] 1.1.1 a"), lineOf (r"    - [x] 1.1.2 b")]

/-- Two top-level tasks for the replace round-trip. -/
def docRoundTrip : List (List Char) :=
  [lineOf (r"- [~] 1.1 alpha"), lineOf (r"- [x] 2.1 beta")]

/-- A group whose only executable work is one queued leaf. -/
def docNextExec : List (List Char) :=
  [lineOf (r"- [ ] 1 G"), lineOf (r"  - [ ] 1.1 S"),
   lineOf (r"    - [x] 1.1.1 a"), lineOf (r"    - [~] 1.1.2 b")]

/-- A depth-2 task line with no depth-3 children. -/
def docChildless : List (List Char) :=
  [lineOf (r"- [ ] 1 G"), lineOf (r"  - [x] 1.1 A")]

/-- A single queued task, for the verification layer. -/
def docQueuedVerify : List (List Char) := [lineOf (r"- [~] 1.1 test")]

/-- Token of the depth-1 header of the demonstration documents. -/
def tokG : TaskLine := ⟨0, ' ', false, ['1'], ['G']⟩

/-- Token of the depth-2 header of the demonstration documents. -/
def tokS : TaskLine := ⟨2, ' ', false, ['1', '.', '1'], ['S']⟩

/-- Token of the first leaf of the demonstration documents. -/
def tokA (m : Char) : TaskLine := ⟨4, m, false, ['1', '.', '1', '.', '1'], ['a']⟩

/-- Token of the second leaf of the demonstration documents. -/
def tokB (m : Char) : TaskLine := ⟨4, m, false, ['1', '.', '1', '.', '2'], ['b']⟩

/-- Token of the childless depth-2 line of `docChildless`. -/
def tokA2 : TaskLine := ⟨2, 'x', false, ['1', '.', '1'], ['A']⟩

/-!  Lemmas about the Line Parser and marker surgery. -/

theorem charToStatus_statusToChar (s : TaskStatus) : charToStatus (statusToChar s) = some s := by
  cases s <;> rfl

theorem parseTail_marker (m c : Char) (rest : List Char) (n : Nat) (tl : TaskLine)
    (h : parseTail m rest n = some tl) :
    parseTail c rest n = some { tl with marker := c } := by
  unfold parseTail at h ⊢
  split at h
  · split at h
    · exact absurd h (by simp)
    · rename_i h1 h2
      rw [if_pos h1, if_neg h2]
      simp only [Option.some.injEq] at h
      subst h
      rfl
  · exact absurd h (by simp)

theorem parseTaskLineAux_setMarker : ∀ (l : List Char) (n : Nat) (c : Char) (tl : TaskLine),
    parseTaskLineAux l n = some tl →
    parseTaskLineAux (setMarkerAux l c) n = some { tl with marker := c } := by
  intro l
  induction l with
  | nil => intro n c tl h; simp [parseTaskLineAux] at h
  | cons a rest ih =>
    intro n c tl h
    by_cases ha : a = ' '
    · subst ha
      simp only [parseTaskLineAux, if_pos rfl] at h
      simp only [setMarkerAux, if_pos rfl, parseTaskLineAux]
      exact ih _ _ _ h
    · simp only [parseTaskLineAux, if_neg ha] at h
      simp only [setMarkerAux, if_neg ha]
      unfold parseBody at h
      split at h
      · rename_i n1 l1 n2 m rest2 heq
        rw [heq]
        simp only [markerBody, parseTaskLineAux, parseBody]
        have hd : ¬('-' = ' ') := by decide
        rw [if_neg hd]
        exact parseTail_marker m c rest2 n1 tl h
      · exact absurd h (by simp)

theorem parseTaskLine_setMarker (l : List Char) (c : Char) (tl : TaskLine)
    (h : parseTaskLine l = some tl) :
    parseTaskLine (setMarker l c) = some { tl with marker := c } :=
  parseTaskLineAux_setMarker l 0 c tl h

theorem lineId_setMarker (l : List Char) (c : Char) (tl : TaskLine)
    (h : parseTaskLine l = some tl) : lineId (setMarker l c) = some tl.id := by
  rw [lineId, parseTaskLine_setMarker l c tl h]
  rfl

theorem lineStatus_setMarker (l : List Char) (c : Char) (tl : TaskLine)
    (h : parseTaskLine l = some tl) : lineStatus (setMarker l c) = charToStatus c := by
  rw [lineStatus, parseTaskLine_setMarker l c tl h]
  rfl



/-!  Generic list lemmas used by the claim proofs. -/

theorem find?_first {α : Type} (p : α → Bool) :
    ∀ (l : List α) (a : α), l.find? p = some a →
    ∃ i, ∃ hi : i < l.length, l.get ⟨i, hi⟩ = a ∧ p a = true ∧
      ∀ j, ∀ hj : j < l.length, j < i → p (l.get ⟨j, hj⟩) = false := by
  intro l
  induction l with
  | nil => intro a h; simp [List.find?] at h
  | cons x rest ih =>
    intro a h
    rw [List.find?] at h
    by_cases hp : p x
    · rw [hp] at h
      simp only [Option.some.injEq] at h
      subst h
      exact ⟨0, by simp, rfl, hp, fun j hj hj0 => absurd hj0 (Nat.not_lt_zero j)⟩
    · rw [Bool.not_eq_true] at hp
      rw [hp] at h
      obtain ⟨i, hi, hget, hpa, hprev⟩ := ih a h
      refine ⟨i + 1, Nat.succ_lt_succ hi, hget, hpa, ?_⟩
      intro j hj hj0
      cases j with
      | zero => exact hp
      | succ j0 =>
        exact hprev j0 (Nat.lt_of_succ_lt_succ hj) (Nat.lt_of_succ_lt_succ hj0)

theorem firstIdx_spec (p : List Char → Bool) :
    ∀ (l : List (List Char)) (i : Nat), firstIdx p l = some i →
    ∃ hi : i < l.length, p (l.get ⟨i, hi⟩) = true ∧
      ∀ j, ∀ hj : j < l.length, j < i → p (l.get ⟨j, hj⟩) = false := by
  intro l
  induction l with
  | nil => intro i h; simp [firstIdx] at h
  | cons x rest ih =>
    intro i h
    rw [firstIdx] at h
    by_cases hp : p x
    · rw [if_pos hp] at h
      simp only [Option.some.injEq] at h
      subst h
      exact ⟨by simp, hp, fun j hj hj0 => absurd hj0 (Nat.not_lt_zero j)⟩
    · rw [if_neg hp, Option.map_eq_some'] at h
      obtain ⟨i0, hfind, rfl⟩ := h
      obtain ⟨hi, hpa, hprev⟩ := ih i0 hfind
      refine ⟨Nat.succ_lt_succ hi, hpa, ?_⟩
      intro j hj hj0
      cases j with
      | zero => exact Bool.eq_false_iff.mpr hp
      | succ j0 =>
        exact hprev j0 (Nat.lt_of_succ_lt_succ hj) (Nat.lt_of_succ_lt_succ hj0)

theorem failLines_length (gid fid : List Char) (fi : Nat) :
    ∀ (i0 : Nat) (doc : List (List Char)), (failLines gid fid fi i0 doc).length = doc.length := by
  intro i0 doc
  induction doc generalizing i0 with
  | nil => rfl
  | cons l rest ih => simp [failLines, ih]

theorem failLines_get (gid fid : List Char) (fi : Nat) :
    ∀ (doc : List (List Char)) (i0 i : Nat) (hi : i < doc.length)
      (hi2 : i < (failLines gid fid fi i0 doc).length),
    (failLines gid fid fi i0 doc).get ⟨i, hi2⟩ = failLine gid fid fi (i0 + i) (doc.get ⟨i, hi⟩) := by
  intro doc
  induction doc with
  | nil => intro i0 i hi; exact absurd hi (Nat.not_lt_zero i)
  | cons l rest ih =>
    intro i0 i hi hi2
    cases i with
    | zero => simp [failLines]
    | succ i1 =>
      have h1 : i1 < rest.length := Nat.lt_of_succ_lt_succ hi
      have h2 : i1 < (failLines gid fid fi (i0 + 1) rest).length := by
        rw [failLines_length]; exact h1
      have hh := ih (i0 + 1) i1 h1 h2
      simp only [failLines, List.get_cons_succ]
      rw [hh]
      congr 1
      omega

theorem markBlocked_length : ∀ (cs : List TaskLine) (b : Bool),
    (markBlocked cs b).length = cs.length := by
  intro cs
  induction cs with
  | nil => intro b; rfl
  | cons t rest ih => intro b; simp [markBlocked, ih]

theorem markBlocked_get : ∀ (cs : List TaskLine) (b : Bool) (i : Nat)
    (hi : i < cs.length) (hi2 : i < (markBlocked cs b).length),
    ((markBlocked cs b).get ⟨i, hi2⟩).status = statusOfChar (cs.get ⟨i, hi⟩).marker ∧
    ((markBlocked cs b).get ⟨i, hi2⟩).isBlocked =
      (b || (cs.take i).any (fun t => decide (statusOfChar t.marker = .failed))) := by
  intro cs
  induction cs with
  | nil => intro b i hi; exact absurd hi (Nat.not_lt_zero i)
  | cons t rest ih =>
    intro b i hi hi2
    cases i with
    | zero => simp [markBlocked]
    | succ i1 =>
      have h1 : i1 < rest.length := Nat.lt_of_succ_lt_succ hi
      have h2 : i1 < (markBlocked rest (b || decide (statusOfChar t.marker = .failed))).length := by
        rw [markBlocked_length]; exact h1
      have hh := ih (b || decide (statusOfChar t.marker = .failed)) i1 h1 h2
      simp only [markBlocked, List.get_cons_succ]
      refine ⟨hh.1, ?_⟩
      rw [hh.2]
      simp [List.any_cons, Bool.or_assoc]



/-!  Lemmas about segment splitting and the aggregation rule. -/

theorem segByDepth_snd_length (d : Nat) :
    ∀ (l : List TaskLine),
    (segByDepth d l).2.length = l.countP (fun t => decide (t.depth = d)) := by
  intro l
  induction l with
  | nil => rfl
  | cons t rest ih =>
    by_cases hd : t.depth = d
    · simp [segByDepth, hd, List.countP_cons, ih]
    · simp [segByDepth, hd, List.countP_cons, ih]

theorem segByDepth_fst_nil (d : Nat) (post : List TaskLine)
    (h : ∀ x ∈ post.head?, x.depth = d) : (segByDepth d post).1 = [] := by
  cases post with
  | nil => rfl
  | cons a rest =>
    have ha : a.depth = d := h a rfl
    simp [segByDepth, ha]

theorem segByDepth_append_nod (d : Nat) :
    ∀ (seg rest : List TaskLine), (∀ t ∈ seg, t.depth ≠ d) →
    segByDepth d (seg ++ rest) = (seg ++ (segByDepth d rest).1, (segByDepth d rest).2) := by
  intro seg
  induction seg with
  | nil => intro rest h; simp
  | cons t seg1 ih =>
    intro rest h
    have ht : t.depth ≠ d := h t (List.mem_cons_self t seg1)
    have hrec := ih rest (fun x hx => h x (List.mem_cons_of_mem t hx))
    simp [segByDepth, ht, hrec]

theorem segByDepth_mem_prepend (d : Nat) :
    ∀ (pre rest : List TaskLine) (p : TaskLine × List TaskLine),
    p ∈ (segByDepth d rest).2 → p ∈ (segByDepth d (pre ++ rest)).2 := by
  intro pre
  induction pre with
  | nil => intro rest p h; exact h
  | cons a pre1 ih =>
    intro rest p h
    have hh := ih rest p h
    by_cases hd : a.depth = d
    · simp only [List.cons_append, segByDepth, if_pos hd]
      exact List.mem_cons_of_mem _ hh
    · simp only [List.cons_append, segByDepth, if_neg hd]
      exact hh

theorem segByDepth_mem_of_decomp (d : Nat) (pre seg post : List TaskLine) (hdr : TaskLine)
    (h1 : hdr.depth = d) (hseg : ∀ t ∈ seg, t.depth ≠ d)
    (hpost : ∀ x ∈ post.head?, x.depth = d) :
    (hdr, seg) ∈ (segByDepth d (pre ++ hdr :: (seg ++ post))).2 := by
  apply segByDepth_mem_prepend
  show (hdr, seg) ∈ (segByDepth d (hdr :: (seg ++ post))).2
  simp only [segByDepth, if_pos h1]
  rw [segByDepth_append_nod d seg post hseg]
  rw [segByDepth_fst_nil d post hpost]
  simp

theorem mem_map_normalize_failed (l : List TaskStatus) :
    TaskStatus.failed ∈ l.map normalizeStatus ↔ TaskStatus.failed ∈ l := by
  simp only [List.mem_map]
  constructor
  · rintro ⟨s, hs, he⟩
    cases s <;> simp [normalizeStatus] at he
    simpa using hs
  · intro h; exact ⟨.failed, h, rfl⟩

theorem mem_map_normalize_in_progress (l : List TaskStatus) :
    TaskStatus.in_progress ∈ l.map normalizeStatus ↔ TaskStatus.in_progress ∈ l := by
  simp only [List.mem_map]
  constructor
  · rintro ⟨s, hs, he⟩
    cases s <;> simp [normalizeStatus] at he
    simpa using hs
  · intro h; exact ⟨.in_progress, h, rfl⟩

theorem aggregateStatuses_eq_spec (l : List TaskStatus) :
    aggregateStatuses l = specAggregate l := by
  simp only [aggregateStatuses, specAggregate]
  simp only [mem_map_normalize_failed, mem_map_normalize_in_progress]

theorem aggregateStatuses_perm (l l' : List TaskStatus) (h : l.Perm l') :
    aggregateStatuses l = aggregateStatuses l' := by
  have hm : ∀ s : TaskStatus, s ∈ l.map normalizeStatus ↔ s ∈ l'.map normalizeStatus :=
    fun s => (h.map normalizeStatus).mem_iff
  simp only [aggregateStatuses]
  simp only [hm]



/-!  Further helper lemmas. -/

theorem any_take_iff (p : TaskLine → Bool) :
    ∀ (cs : List TaskLine) (i : Nat),
    (cs.take i).any p = true ↔
      ∃ j, ∃ hj : j < cs.length, j < i ∧ p (cs.get ⟨j, hj⟩) = true := by
  intro cs
  induction cs with
  | nil => intro i; simp
  | cons t rest ih =>
    intro i
    cases i with
    | zero => simp
    | succ i1 =>
      simp only [List.take_succ_cons, List.any_cons, Bool.or_eq_true, ih]
      constructor
      · rintro (hp | ⟨j, hj, hji, hpj⟩)
        · exact ⟨0, Nat.succ_pos rest.length, Nat.succ_pos i1, hp⟩
        · exact ⟨j + 1, Nat.succ_lt_succ hj, Nat.succ_lt_succ hji, hpj⟩
      · rintro ⟨j, hj, hji, hpj⟩
        cases j with
        | zero => exact Or.inl hpj
        | succ j1 =>
          exact Or.inr ⟨j1, Nat.lt_of_succ_lt_succ hj, Nat.lt_of_succ_lt_succ hji, hpj⟩

theorem charToStatus_eq_not_started (c : Char)
    (h : charToStatus c = some TaskStatus.not_started) : c = ' ' := by
  unfold charToStatus at h
  split_ifs at h with h1 h2 h3 h4 h5
  · exact h1
  all_goals simp_all

theorem mem_map_normalize_completed (l : List TaskStatus) :
    TaskStatus.completed ∈ l.map normalizeStatus ↔ TaskStatus.completed ∈ l := by
  simp only [List.mem_map]
  constructor
  · rintro ⟨s, hs, he⟩
    cases s <;> simp [normalizeStatus] at he
    simpa using hs
  · intro h; exact ⟨.completed, h, rfl⟩

theorem mem_map_normalize_not_started (l : List TaskStatus) :
    TaskStatus.not_started ∈ l.map normalizeStatus ↔
      (TaskStatus.not_started ∈ l ∨ TaskStatus.queued ∈ l) := by
  simp only [List.mem_map]
  constructor
  · rintro ⟨s, hs, he⟩
    cases s <;> simp [normalizeStatus] at he
    · exact Or.inl hs
    · exact Or.inr hs
  · rintro (h | h)
    · exact ⟨.not_started, h, rfl⟩
    · exact ⟨.queued, h, rfl⟩

theorem segByDepth_all_ne (d : Nat) (l : List TaskLine) (h : ∀ t ∈ l, t.depth ≠ d) :
    segByDepth d l = (l, []) := by
  have hh := segByDepth_append_nod d l [] h
  simp only [List.append_nil] at hh
  rw [hh]
  simp [segByDepth]


/-!  Claim theorems. -/

/-- C1: For every non-empty list of constituent statuses the resolver's
aggregate status follows the fixed precedence rule exactly as the
specification words it (failed first, then in_progress, then the
completed/mixed/not_started distinction after normalizing queued to
not_started), the result is invariant under permutation of the
constituents, and the very same aggregation function is the one applied
both when a subgroup aggregates its leaf statuses and when a group
aggregates the effective statuses of its depth-2 tasks. -/
theorem aggregation_precedence_correct (l : List TaskStatus) (h : l ≠ []) :
    aggregateStatuses l = specAggregate l ∧
    (∀ l' : List TaskStatus, l.Perm l' → aggregateStatuses l' = aggregateStatuses l) ∧
    (∀ hs : TaskLine × List TaskLine,
      (mkSubgroup hs).status =
        aggregateStatuses ((childrenOf hs.2).map (fun t => statusOfChar t.marker))) ∧
    (∀ hs : TaskLine × List TaskLine,
      (mkGroup hs).status = aggregateStatuses (((segByDepth 2 hs.2).2).map effStatus)) := by
  refine ⟨aggregateStatuses_eq_spec l, ?_, ?_, ?_⟩
  · intro l' hp
    exact (aggregateStatuses_perm l l' hp).symm
  · intro hs
    rfl
  · intro hs
    rfl

/-- Witness for C1 at the concrete list `[completed, not_started]`. -/
theorem aggregation_precedence_correct_witness :
    ([TaskStatus.completed, TaskStatus.not_started] : List TaskStatus) ≠ [] ∧
    aggregateStatuses [TaskStatus.completed, TaskStatus.not_started] =
      specAggregate [TaskStatus.completed, TaskStatus.not_started] :=
  ⟨by decide, (aggregation_precedence_correct _ (by decide)).1⟩


/-- C2 counterexample: in the parsed subgroup of `docTwoFailures` the
children are failed, failed; the second child has raw status failed — so it
is an `Nth child with raw status failed` in the claim's sense — yet its
isBlocked flag is true, while the claim requires the failed child itself to
have isBlocked false.  The claim as stated is therefore false on this
document. -/
theorem blocking_claim_counterexample :
    (parseGroups docTwoFailures).map (fun g => g.subgroups.map (fun sg =>
      sg.tasks.map (fun t => (t.status, t.isBlocked)))) =
    [[[(TaskStatus.failed, false), (TaskStatus.failed, true)]]] := by decide

/-- C2 (amended): within one parsed subgroup, a child is blocked exactly
when some strictly earlier child of the same subgroup has raw status failed;
so for the first failed child at position N everything after N is blocked
and nothing at or before N is, and the flag depends only on the subgroup's
own children (blocking never crosses subgroup or group boundaries). -/
theorem blocking_after_first_failure (doc : List (List Char)) (g : TaskGroup)
    (hg : g ∈ parseGroups doc) (sg : TaskSubgroup) (hsg : sg ∈ g.subgroups)
    (i : Nat) (hi : i < sg.tasks.length) :
    (sg.tasks.get ⟨i, hi⟩).isBlocked = true ↔
      ∃ j, ∃ hj : j < sg.tasks.length, j < i ∧
        (sg.tasks.get ⟨j, hj⟩).status = TaskStatus.failed := by
  simp only [parseGroups, List.mem_map] at hg
  obtain ⟨hs, hmemg, rfl⟩ := hg
  simp only [mkGroup, List.mem_map] at hsg
  obtain ⟨hs2, hmem2, rfl⟩ := hsg
  simp only [mkSubgroup] at hi ⊢
  have hlen : ∀ b, (markBlocked (childrenOf hs2.2) b).length = (childrenOf hs2.2).length :=
    fun b => markBlocked_length (childrenOf hs2.2) b
  have hi0 : i < (childrenOf hs2.2).length := by rw [← hlen false]; exact hi
  have hmb := markBlocked_get (childrenOf hs2.2) false i hi0 hi
  rw [hmb.2]
  simp only [Bool.false_or]
  rw [any_take_iff]
  constructor
  · rintro ⟨j, hj, hji, hpj⟩
    have hj2 : j < (markBlocked (childrenOf hs2.2) false).length := by rw [hlen false]; exact hj
    have hmbj := markBlocked_get (childrenOf hs2.2) false j hj hj2
    refine ⟨j, hj2, hji, ?_⟩
    rw [hmbj.1]
    exact of_decide_eq_true hpj
  · rintro ⟨j, hj, hji, hpj⟩
    have hj0 : j < (childrenOf hs2.2).length := by rw [← hlen false]; exact hj
    have hmbj := markBlocked_get (childrenOf hs2.2) false j hj0 hj
    refine ⟨j, hj0, hji, ?_⟩
    rw [hmbj.1] at hpj
    exact decide_eq_true hpj

/-- Witness for the amended C2 on `docOneFailure`: the second child sits
after the failed first child and is blocked. -/
theorem blocking_after_first_failure_witness :
    mkGroup (tokG, [tokS, tokA '!', tokB ' ']) ∈ parseGroups docOneFailure ∧
    mkSubgroup (tokS, [tokA '!', tokB ' ']) ∈
      (mkGroup (tokG, [tokS, tokA '!', tokB ' '])).subgroups ∧
    1 < (mkSubgroup (tokS, [tokA '!', tokB ' '])).tasks.length ∧
    (((mkSubgroup (tokS, [tokA '!', tokB ' '])).tasks.get ⟨1, by decide⟩).isBlocked = true ↔
      ∃ j, ∃ hj : j < (mkSubgroup (tokS, [tokA '!', tokB ' '])).tasks.length, j < 1 ∧
        ((mkSubgroup (tokS, [tokA '!', tokB ' '])).tasks.get ⟨j, hj⟩).status =
          TaskStatus.failed) :=
  ⟨by decide, by decide, by decide,
    blocking_after_first_failure docOneFailure (mkGroup (tokG, [tokS, tokA '!', tokB ' ']))
      (by decide) (mkSubgroup (tokS, [tokA '!', tokB ' '])) (by decide) 1 (by decide)⟩



/-- C8 counterexample: in `docChildless` the depth-2 line `1.1` has no
depth-3 children, yet the parsed group's subgroups sequence contains a
TaskSubgroup for it (with an empty child list and totalTasks 0) — the
repository's own counting property test pins exactly this shape.  The claim
that such a line produces no corresponding TaskSubgroup is therefore false. -/
theorem childless_subgroup_counterexample :
    (parseGroups docChildless).map (fun g => g.subgroups.map (fun sg =>
      (sg.id, sg.totalTasks, sg.tasks))) = [[(['1', '.', '1'], 0, [])]] ∧
    (taskLines docChildless).countP (fun t => decide (t.depth = 3)) = 0 := by
  exact ⟨by decide, by decide⟩

/-- C8 (amended): a depth-2 task line without depth-3 children yields a
TaskSubgroup with an empty child sequence and totalTasks 0 (one subgroup per
depth-2 line), and the Aggregation Engine still treats such a depth-2 task
as a leaf: its effective status is its own raw status. -/
theorem childless_depth2_as_leaf (hdr h2 : TaskLine) (seg : List TaskLine)
    (hchild : childrenOf seg = []) :
    (mkSubgroup (h2, seg)).tasks = [] ∧
    (mkSubgroup (h2, seg)).totalTasks = 0 ∧
    effStatus (h2, seg) = statusOfChar h2.marker ∧
    (∀ seg1 : List TaskLine,
      (mkGroup (hdr, seg1)).subgroups.length =
        seg1.countP (fun t => decide (t.depth = 2))) := by
  refine ⟨?_, ?_, ?_, ?_⟩
  · simp [mkSubgroup, hchild, markBlocked]
  · simp [mkSubgroup, hchild]
  · simp [effStatus, hchild]
  · intro seg1
    simp only [mkGroup, List.length_map]
    exact segByDepth_snd_length 2 seg1

/-- Witness for the amended C8 on the tokens of `docChildless`. -/
theorem childless_depth2_as_leaf_witness :
    childrenOf ([] : List TaskLine) = [] ∧
    (mkSubgroup (tokA2, ([] : List TaskLine))).tasks = [] ∧
    (mkSubgroup (tokA2, ([] : List TaskLine))).totalTasks = 0 ∧
    effStatus (tokA2, ([] : List TaskLine)) = statusOfChar tokA2.marker :=
  ⟨by decide,
    (childless_depth2_as_leaf tokG tokA2 [] (by decide)).1,
    (childless_depth2_as_leaf tokG tokA2 [] (by decide)).2.1,
    (childless_depth2_as_leaf tokG tokA2 [] (by decide)).2.2.1⟩


/-- C9: when a depth-2 task's children mix completed with
not_started/queued and contain no failed and no in_progress, their
aggregate is the mixed value, the effective status the depth-2 task
contributes to the group aggregation is in_progress, and for a group whose
single depth-2 task carries exactly those children the derived group status
is in_progress (never the mixed value), while the subgroup itself reports
the mixed value. -/
theorem partly_folds_to_in_progress (cs : List TaskStatus)
    (hc : TaskStatus.completed ∈ cs)
    (hn : TaskStatus.not_started ∈ cs ∨ TaskStatus.queued ∈ cs)
    (hf : TaskStatus.failed ∉ cs) (hp : TaskStatus.in_progress ∉ cs) :
    aggregateStatuses cs = TaskGroupStatus.partly ∧
    effectiveOfAggregate (aggregateStatuses cs) = TaskStatus.in_progress ∧
    (∀ hdr h2 : TaskLine, ∀ ls : List TaskLine,
      h2.depth = 2 → (∀ t ∈ ls, t.depth = 3) →
      ls.map (fun t => statusOfChar t.marker) = cs →
      (mkGroup (hdr, h2 :: ls)).status = TaskGroupStatus.in_progress ∧
      (mkGroup (hdr, h2 :: ls)).subgroups.map (fun sg => sg.status) =
        [TaskGroupStatus.partly]) := by
  have h1 : TaskStatus.failed ∉ cs.map normalizeStatus := by
    rw [mem_map_normalize_failed]; exact hf
  have h2m : TaskStatus.in_progress ∉ cs.map normalizeStatus := by
    rw [mem_map_normalize_in_progress]; exact hp
  have h3 : TaskStatus.completed ∈ cs.map normalizeStatus := by
    rw [mem_map_normalize_completed]; exact hc
  have h4 : TaskStatus.not_started ∈ cs.map normalizeStatus := by
    rw [mem_map_normalize_not_started]; exact hn
  have hagg : aggregateStatuses cs = TaskGroupStatus.partly := by
    simp [aggregateStatuses, h1, h2m, h3, h4]
  refine ⟨hagg, by rw [hagg]; rfl, ?_⟩
  intro hdr h2 ls hd2 hd3 hmap
  have hnonempty : ls ≠ [] := by
    intro hls
    rw [hls] at hmap
    rw [← hmap] at hc
    simp at hc
  have hne2 : ∀ t ∈ ls, t.depth ≠ 2 := by
    intro t ht
    rw [hd3 t ht]
    decide
  have hsplit : segByDepth 2 (h2 :: ls) = ([], [(h2, ls)]) := by
    simp only [segByDepth, if_pos hd2]
    rw [segByDepth_all_ne 2 ls hne2]
  have hchild : childrenOf ls = ls := by
    apply List.filter_eq_self.mpr
    intro t ht
    exact decide_eq_true (hd3 t ht)
  have heff : effStatus (h2, ls) = TaskStatus.in_progress := by
    simp only [effStatus, hchild]
    rw [if_neg hnonempty, hmap, hagg]
    rfl
  constructor
  · simp only [mkGroup, hsplit, List.map_cons, List.map_nil, heff]
    decide
  · simp only [mkGroup, hsplit, List.map_cons, List.map_nil, mkSubgroup, hchild, hmap, hagg]

/-- Witness for C9 at children `[completed, not_started]` and the concrete
tokens of the demonstration documents. -/
theorem partly_folds_to_in_progress_witness :
    TaskStatus.completed ∈ ([TaskStatus.completed, TaskStatus.not_started] : List TaskStatus) ∧
    (TaskStatus.not_started ∈ ([TaskStatus.completed, TaskStatus.not_started] : List TaskStatus) ∨
      TaskStatus.queued ∈ ([TaskStatus.completed, TaskStatus.not_started] : List TaskStatus)) ∧
    TaskStatus.failed ∉ ([TaskStatus.completed, TaskStatus.not_started] : List TaskStatus) ∧
    TaskStatus.in_progress ∉ ([TaskStatus.completed, TaskStatus.not_started] : List TaskStatus) ∧
    aggregateStatuses [TaskStatus.completed, TaskStatus.not_started] = TaskGroupStatus.partly :=
  ⟨by decide, by decide, by decide, by decide,
    (partly_folds_to_in_progress [TaskStatus.completed, TaskStatus.not_started]
      (by decide) (by decide) (by decide) (by decide)).1⟩


/-- C10: the verification layer's own lightweight parse reads the queued
marker as not_started, so for a task currently marked with the tilde the
status check passes exactly when the expected status is not_started (any
other expected status reports drift), even though the engine's codec parses
the tilde as queued. -/
theorem verifier_reads_queued_as_not_started (doc : List (List Char)) (tid : List Char)
    (l : List Char) (tl : TaskLine) (expected : TaskStatus)
    (hfind : doc.find? (fun l2 => lineHasId l2 tid) = some l)
    (hparse : parseTaskLine l = some tl) (hm : tl.marker = '~') :
    (verifierStatusCheckPasses doc tid expected = true ↔
      expected = TaskStatus.not_started) ∧
    charToStatus '~' = some TaskStatus.queued ∧
    statusCharToTaskStatus '~' = TaskStatus.not_started := by
  refine ⟨?_, rfl, rfl⟩
  have hv : verifierTaskStatus doc tid = some TaskStatus.not_started := by
    simp only [verifierTaskStatus, hfind, hparse, Option.map_some', hm]
    rfl
  simp only [verifierStatusCheckPasses, hv, decide_eq_true_eq, Option.some.injEq]
  constructor
  · intro h2; exact h2.symm
  · intro h2; exact h2.symm

/-- Witness for C10 on `docQueuedVerify` with expected status completed. -/
theorem verifier_reads_queued_as_not_started_witness :
    docQueuedVerify.find? (fun l2 => lineHasId l2 ['1', '.', '1']) =
      some (lineOf (r"- [~] 1.1 test")) ∧
    (∃ tl : TaskLine, parseTaskLine (lineOf (r"- [~] 1.1 test")) = some tl ∧
      tl.marker = '~') ∧
    (verifierStatusCheckPasses docQueuedVerify ['1', '.', '1'] TaskStatus.completed = true ↔
      TaskStatus.completed = TaskStatus.not_started) :=
  ⟨by decide, ⟨⟨0, '~', false, ['1', '.', '1'], ['t', 'e', 's', 't']⟩, by decide, rfl⟩,
    (verifier_reads_queued_as_not_started docQueuedVerify ['1', '.', '1']
      (lineOf (r"- [~] 1.1 test")) ⟨0, '~', false, ['1', '.', '1'], ['t', 'e', 's', 't']⟩
      TaskStatus.completed (by decide) (by decide) rfl).1⟩



/-- C6: for every parsed group, findNextExecutableTask scans the group's
tasks in document order skipping blocked tasks: when an eligible not_started
task exists it returns the first one in document order; otherwise, when an
eligible queued task exists it returns the first eligible queued task in
document order; when neither exists it returns nothing. -/
theorem findNextExecutableTask_correct (doc : List (List Char)) (g : TaskGroup)
    (hg : g ∈ parseGroups doc) :
    ((∃ t ∈ execTasks g, eligibleNotStarted t = true) →
      ∃ i, ∃ hi : i < (execTasks g).length,
        findNextExecutableTask g = some ((execTasks g).get ⟨i, hi⟩) ∧
        eligibleNotStarted ((execTasks g).get ⟨i, hi⟩) = true ∧
        ∀ j, ∀ hj : j < (execTasks g).length, j < i →
          eligibleNotStarted ((execTasks g).get ⟨j, hj⟩) = false) ∧
    ((∀ t ∈ execTasks g, eligibleNotStarted t = false) →
      (∃ t ∈ execTasks g, eligibleQueued t = true) →
      ∃ i, ∃ hi : i < (execTasks g).length,
        findNextExecutableTask g = some ((execTasks g).get ⟨i, hi⟩) ∧
        eligibleQueued ((execTasks g).get ⟨i, hi⟩) = true ∧
        ∀ j, ∀ hj : j < (execTasks g).length, j < i →
          eligibleQueued ((execTasks g).get ⟨j, hj⟩) = false) ∧
    ((∀ t ∈ execTasks g, eligibleNotStarted t = false ∧ eligibleQueued t = false) →
      findNextExecutableTask g = none) := by
  refine ⟨?_, ?_, ?_⟩
  · rintro ⟨t, ht, helig⟩
    rcases hfind : (execTasks g).find? eligibleNotStarted with _ | a
    · exfalso
      rw [List.find?_eq_none] at hfind
      exact hfind t ht helig
    · obtain ⟨i0, hi0, hget, hpa, hprev⟩ := find?_first eligibleNotStarted (execTasks g) a hfind
      refine ⟨i0, hi0, ?_, by rw [hget]; exact hpa, hprev⟩
      rw [findNextExecutableTask, hfind, hget]
  · intro hnone
    rintro ⟨t, ht, helig⟩
    have hfindns : (execTasks g).find? eligibleNotStarted = none := by
      rw [List.find?_eq_none]
      intro x hx
      simp [hnone x hx]
    rcases hfind : (execTasks g).find? eligibleQueued with _ | a
    · exfalso
      rw [List.find?_eq_none] at hfind
      exact hfind t ht helig
    · obtain ⟨i0, hi0, hget, hpa, hprev⟩ := find?_first eligibleQueued (execTasks g) a hfind
      refine ⟨i0, hi0, ?_, by rw [hget]; exact hpa, hprev⟩
      rw [findNextExecutableTask, hfindns, hfind, hget]
  · intro hnone
    have hfindns : (execTasks g).find? eligibleNotStarted = none := by
      rw [List.find?_eq_none]
      intro x hx
      simp [(hnone x hx).1]
    have hfindq : (execTasks g).find? eligibleQueued = none := by
      rw [List.find?_eq_none]
      intro x hx
      simp [(hnone x hx).2]
    rw [findNextExecutableTask, hfindns, hfindq]

/-- Witness for C6 on `docNextExec`: no eligible not_started task exists,
and the first eligible queued task is returned. -/
theorem findNextExecutableTask_correct_witness :
    mkGroup (tokG, [tokS, tokA 'x', tokB '~']) ∈ parseGroups docNextExec ∧
    (∀ t ∈ execTasks (mkGroup (tokG, [tokS, tokA 'x', tokB '~'])),
      eligibleNotStarted t = false) ∧
    (∃ t ∈ execTasks (mkGroup (tokG, [tokS, tokA 'x', tokB '~'])),
      eligibleQueued t = true) ∧
    (∃ i, ∃ hi : i < (execTasks (mkGroup (tokG, [tokS, tokA 'x', tokB '~']))).length,
      findNextExecutableTask (mkGroup (tokG, [tokS, tokA 'x', tokB '~'])) =
        some ((execTasks (mkGroup (tokG, [tokS, tokA 'x', tokB '~']))).get ⟨i, hi⟩) ∧
      eligibleQueued
        ((execTasks (mkGroup (tokG, [tokS, tokA 'x', tokB '~']))).get ⟨i, hi⟩) = true ∧
      ∀ j, ∀ hj : j < (execTasks (mkGroup (tokG, [tokS, tokA 'x', tokB '~']))).length, j < i →
        eligibleQueued
          ((execTasks (mkGroup (tokG, [tokS, tokA 'x', tokB '~']))).get ⟨j, hj⟩) = false) :=
  ⟨by decide, by decide, by decide,
    (findNextExecutableTask_correct docNextExec (mkGroup (tokG, [tokS, tokA 'x', tokB '~']))
      (by decide)).2.1 (by decide) (by decide)⟩



/-- C4: after queueGroupTasks on a document containing the named group,
every leaf task line under that group whose status was not_started now
reads queued, and every line that is not such a leaf — in particular every
leaf task in any other status — is byte-identical to before the call, so it
still parses to exactly its original status. -/
theorem queueGroupTasks_correct (doc : List (List Char)) (gid : List Char)
    (hg : doc.any (fun l => lineHasId l gid) = true) :
    (queueGroupTasks doc gid).length = doc.length ∧
    ∀ i, ∀ hi : i < doc.length, ∀ hi2 : i < (queueGroupTasks doc gid).length,
      ∀ tl : TaskLine, parseTaskLine (doc.get ⟨i, hi⟩) = some tl →
      (underId tl.id gid = true → isLeafIn doc tl.id = true →
        lineStatus (doc.get ⟨i, hi⟩) = some TaskStatus.not_started →
        lineStatus ((queueGroupTasks doc gid).get ⟨i, hi2⟩) = some TaskStatus.queued) ∧
      (¬(underId tl.id gid = true ∧ isLeafIn doc tl.id = true ∧
          lineStatus (doc.get ⟨i, hi⟩) = some TaskStatus.not_started) →
        (queueGroupTasks doc gid).get ⟨i, hi2⟩ = doc.get ⟨i, hi⟩) := by
  constructor
  · simp [queueGroupTasks]
  · intro i hi hi2 tl hparse
    have hget : (queueGroupTasks doc gid).get ⟨i, hi2⟩ = queueLine doc gid (doc.get ⟨i, hi⟩) := by
      simp [queueGroupTasks]
    constructor
    · intro hu hl hstat
      have hm : tl.marker = ' ' := by
        rw [lineStatus, hparse] at hstat
        exact charToStatus_eq_not_started tl.marker hstat
      rw [hget]
      simp only [queueLine, hparse]
      rw [if_pos ⟨hu, hl, hm⟩]
      rw [lineStatus_setMarker _ _ _ hparse]
      rfl
    · intro hneg
      rw [hget]
      simp only [queueLine, hparse]
      rw [if_neg]
      intro hcond
      obtain ⟨hu, hl, hm⟩ := hcond
      apply hneg
      refine ⟨hu, hl, ?_⟩
      rw [lineStatus, hparse]
      show charToStatus tl.marker = some TaskStatus.not_started
      rw [hm]
      rfl

/-- Witness for C4 on `docQueueMix`: the not_started leaf 1.1.1 becomes
queued and the completed leaf 1.1.2 is untouched. -/
theorem queueGroupTasks_correct_witness :
    docQueueMix.any (fun l => lineHasId l ['1']) = true ∧
    lineStatus ((queueGroupTasks docQueueMix ['1']).get ⟨2, by decide⟩) =
      some TaskStatus.queued ∧
    (queueGroupTasks docQueueMix ['1']).get ⟨3, by decide⟩ = docQueueMix.get ⟨3, by decide⟩ :=
  ⟨by decide,
    ((queueGroupTasks_correct docQueueMix ['1'] (by decide)).2 2 (by decide) (by decide)
      (tokA ' ') (by decide)).1 (by decide) (by decide) (by decide),
    ((queueGroupTasks_correct docQueueMix ['1'] (by decide)).2 3 (by decide) (by decide)
      (tokB 'x') (by decide)).2 (by decide)⟩



/-- Transport a list indexing step across an equality of lists. -/
theorem get_congr {α : Type} (l l' : List α) (h : l = l') (i : Nat)
    (hi : i < l.length) (hi' : i < l'.length) : l.get ⟨i, hi⟩ = l'.get ⟨i, hi'⟩ := by
  subst h
  rfl

/-- C3: handleTaskFailure on a document containing the group and the failed
task sets the group's own marker to failed, sets the identified task's
marker to failed, reverts to not_started every queued task of the group
after the failure point, and leaves every task line before the failure
point (other than the group's own line, which the operation itself marks
failed) byte-identical, whatever its status. -/
theorem handleTaskFailure_correct (doc : List (List Char)) (gid fid : List Char) (fi : Nat)
    (hfi : firstIdx (fun l => lineHasId l fid) doc = some fi)
    (hg : doc.any (fun l => lineHasId l gid) = true) :
    (handleTaskFailure doc gid fid).length = doc.length ∧
    ∀ i, ∀ hi : i < doc.length, ∀ hi2 : i < (handleTaskFailure doc gid fid).length,
      ∀ tl : TaskLine, parseTaskLine (doc.get ⟨i, hi⟩) = some tl →
      (tl.id = gid →
        lineStatus ((handleTaskFailure doc gid fid).get ⟨i, hi2⟩) =
          some TaskStatus.failed) ∧
      (tl.id = fid →
        lineStatus ((handleTaskFailure doc gid fid).get ⟨i, hi2⟩) =
          some TaskStatus.failed) ∧
      (tl.id ≠ gid → tl.id ≠ fid → underId tl.id gid = true → fi < i → tl.marker = '~' →
        lineStatus ((handleTaskFailure doc gid fid).get ⟨i, hi2⟩) =
          some TaskStatus.not_started) ∧
      (tl.id ≠ gid → i < fi →
        (handleTaskFailure doc gid fid).get ⟨i, hi2⟩ = doc.get ⟨i, hi⟩) := by
  have hdoc : handleTaskFailure doc gid fid = failLines gid fid fi 0 doc := by
    rw [handleTaskFailure, hfi]
  constructor
  · rw [hdoc]
    exact failLines_length gid fid fi 0 doc
  · intro i hi hi2 tl hparse
    have hi2' : i < (failLines gid fid fi 0 doc).length := by rw [← hdoc]; exact hi2
    have hget : (handleTaskFailure doc gid fid).get ⟨i, hi2⟩ =
        failLine gid fid fi i (doc.get ⟨i, hi⟩) := by
      have hg2 := failLines_get gid fid fi doc 0 i hi hi2'
      rw [Nat.zero_add] at hg2
      exact (get_congr _ _ hdoc i hi2 hi2').trans hg2
    refine ⟨?_, ?_, ?_, ?_⟩
    · intro hidg
      rw [hget]
      simp only [failLine, hparse]
      rw [if_pos hidg]
      rw [lineStatus_setMarker _ _ _ hparse]
      rfl
    · intro hidf
      rw [hget]
      simp only [failLine, hparse]
      by_cases hidg : tl.id = gid
      · rw [if_pos hidg, lineStatus_setMarker _ _ _ hparse]
        rfl
      · rw [if_neg hidg, if_pos hidf, lineStatus_setMarker _ _ _ hparse]
        rfl
    · intro hidg hidf hu hlt hm
      rw [hget]
      simp only [failLine, hparse]
      rw [if_neg hidg, if_neg hidf, if_pos ⟨hu, hlt, hm⟩]
      rw [lineStatus_setMarker _ _ _ hparse]
      rfl
    · intro hidg hlt
      obtain ⟨hfi2, hpfi, hprev⟩ := firstIdx_spec (fun l => lineHasId l fid) doc fi hfi
      have hnofid : lineHasId (doc.get ⟨i, hi⟩) fid = false := hprev i hi hlt
      have hidf : tl.id ≠ fid := by
        intro hcontra
        rw [lineHasId, lineId, hparse] at hnofid
        simp [hcontra] at hnofid
      rw [hget]
      simp only [failLine, hparse]
      rw [if_neg hidg, if_neg hidf, if_neg]
      rintro ⟨hu, hlt2, hm⟩
      omega

/-- Witness for C3 on the specification's failure-cascade scenario
`docCascade` with group 1 and failed task 1.1.2: the group line reads
failed, the failed task reads failed, the queued task 1.1.3 reverts to
not_started, and the completed task 1.1.1 is byte-identical. -/
theorem handleTaskFailure_correct_witness :
    firstIdx (fun l => lineHasId l ['1', '.', '1', '.', '2']) docCascade = some 3 ∧
    docCascade.any (fun l => lineHasId l ['1']) = true ∧
    lineStatus ((handleTaskFailure docCascade ['1'] ['1', '.', '1', '.', '2']).get
      ⟨0, by decide⟩) = some TaskStatus.failed ∧
    lineStatus ((handleTaskFailure docCascade ['1'] ['1', '.', '1', '.', '2']).get
      ⟨3, by decide⟩) = some TaskStatus.failed ∧
    lineStatus ((handleTaskFailure docCascade ['1'] ['1', '.', '1', '.', '2']).get
      ⟨4, by decide⟩) = some TaskStatus.not_started ∧
    (handleTaskFailure docCascade ['1'] ['1', '.', '1', '.', '2']).get ⟨2, by decide⟩ =
      docCascade.get ⟨2, by decide⟩ :=
  ⟨by decide, by decide,
    ((handleTaskFailure_correct docCascade ['1'] ['1', '.', '1', '.', '2'] 3 (by decide)
        (by decide)).2 0 (by decide) (by decide) ⟨0, ' ', false, ['1'],
        ['G', 'r', 'o', 'u', 'p']⟩ (by decide)).1 rfl,
    ((handleTaskFailure_correct docCascade ['1'] ['1', '.', '1', '.', '2'] 3 (by decide)
        (by decide)).2 3 (by decide) (by decide) (⟨4, '-', false, ['1', '.', '1', '.', '2'],
        ['b']⟩ : TaskLine) (by decide)).2.1 rfl,
    ((handleTaskFailure_correct docCascade ['1'] ['1', '.', '1', '.', '2'] 3 (by decide)
        (by decide)).2 4 (by decide) (by decide) (⟨4, '~', false, ['1', '.', '1', '.', '3'],
        ['c']⟩ : TaskLine) (by decide)).2.2.1 (by decide) (by decide) (by decide)
        (by decide) rfl,
    ((handleTaskFailure_correct docCascade ['1'] ['1', '.', '1', '.', '2'] 3 (by decide)
        (by decide)).2 2 (by decide) (by decide) (⟨4, 'x', false, ['1', '.', '1', '.', '1'],
        ['a']⟩ : TaskLine) (by decide)).2.2.2 (by decide) (by decide)⟩



/-- C5: for every document containing the task identifier and every valid
status, replaceTaskStatus rewrites only the marker of the first line
carrying that identifier: the document decomposes as prefix, target line
and suffix with prefix and suffix byte-identical after the call, the
rewritten line keeps its identifier and label, and re-parsing the updated
document reads back exactly the status that was set. -/
theorem replaceTaskStatus_roundTrip (doc : List (List Char)) (tid : List Char)
    (st : TaskStatus) (h : doc.any (fun l => lineHasId l tid) = true) :
    ∃ pre l post, ∃ tl : TaskLine,
      doc = pre ++ l :: post ∧
      (∀ l2 ∈ pre, lineHasId l2 tid = false) ∧
      parseTaskLine l = some tl ∧ tl.id = tid ∧
      replaceTaskStatus doc tid st = pre ++ setMarker l (statusToChar st) :: post ∧
      parseTaskLine (setMarker l (statusToChar st)) =
        some { tl with marker := statusToChar st } ∧
      parseTaskStatus (replaceTaskStatus doc tid st) tid = some st := by
  induction doc with
  | nil => simp at h
  | cons l0 rest ih =>
    by_cases hl : lineHasId l0 tid
    · have hlid : lineId l0 = some tid := of_decide_eq_true hl
      obtain ⟨tl, hparse, hid⟩ : ∃ tl, parseTaskLine l0 = some tl ∧ tl.id = tid := by
        rw [lineId] at hlid
        obtain ⟨tl, h1, h2⟩ := Option.map_eq_some'.mp hlid
        exact ⟨tl, h1, h2⟩
      have hrep : replaceTaskStatus (l0 :: rest) tid st =
          setMarker l0 (statusToChar st) :: rest := by
        simp [replaceTaskStatus, hl]
      refine ⟨[], l0, rest, tl, rfl, by simp, hparse, hid, by simpa using hrep,
        parseTaskLine_setMarker l0 _ tl hparse, ?_⟩
      have hnew : lineHasId (setMarker l0 (statusToChar st)) tid = true := by
        rw [lineHasId, lineId_setMarker l0 _ tl hparse, hid]
        simp
      rw [hrep, parseTaskStatus]
      simp only [List.find?, hnew]
      rw [lineStatus_setMarker l0 _ tl hparse]
      exact charToStatus_statusToChar st
    · have hrest : rest.any (fun l2 => lineHasId l2 tid) = true := by
        simp only [List.any_cons, Bool.or_eq_true] at h
        rcases h with h | h
        · exact absurd h hl
        · exact h
      obtain ⟨pre, l, post, tl, hdecomp, hpre, hparse, hid, hrep, hparse2, hstat⟩ := ih hrest
      have hskip : replaceTaskStatus (l0 :: rest) tid st =
          l0 :: replaceTaskStatus rest tid st := by
        simp [replaceTaskStatus, hl]
      refine ⟨l0 :: pre, l, post, tl, by rw [List.cons_append, hdecomp], ?_, hparse, hid,
        ?_, hparse2, ?_⟩
      · intro l2 hl2
        rcases List.mem_cons.mp hl2 with rfl | h2
        · exact Bool.eq_false_iff.mpr hl
        · exact hpre l2 h2
      · rw [hskip, hrep, List.cons_append]
      · rw [hskip, parseTaskStatus]
        have hl2 : lineHasId l0 tid = false := Bool.eq_false_iff.mpr hl
        simp only [List.find?, hl2]
        rw [parseTaskStatus] at hstat
        exact hstat

/-- Witness for C5 on `docRoundTrip`: setting task 1.1 to completed and
re-parsing reads back completed. -/
theorem replaceTaskStatus_roundTrip_witness :
    docRoundTrip.any (fun l => lineHasId l ['1', '.', '1']) = true ∧
    parseTaskStatus (replaceTaskStatus docRoundTrip ['1', '.', '1'] TaskStatus.completed)
      ['1', '.', '1'] = some TaskStatus.completed :=
  ⟨by decide, by
    obtain ⟨pre, l, post, tl, h1, h2, h3, h4, h5, h6, h7⟩ :=
      replaceTaskStatus_roundTrip docRoundTrip ['1', '.', '1'] TaskStatus.completed (by decide)
    exact h7⟩



/-- C7: for every parse of every document, a group built from a maximal
depth-1 segment of the document's task lines is among the parsed groups and
its totalTasks equals exactly the number of depth-2 lines inside that
segment; a subgroup built from a maximal depth-2 subsegment is among that
group's subgroups and its totalTasks equals exactly the number of depth-3
lines inside its subsegment; and completedTasks and failedTasks never
exceed totalTasks, at group and at subgroup level, for every parsed
group. -/
theorem totalTasks_counting (doc : List (List Char)) (pre seg post : List TaskLine)
    (hdr : TaskLine)
    (hdecomp : taskLines doc = pre ++ hdr :: (seg ++ post))
    (hhdr : hdr.depth = 1)
    (hseg : ∀ t ∈ seg, t.depth ≠ 1)
    (hpost : ∀ x ∈ post.head?, x.depth = 1) :
    mkGroup (hdr, seg) ∈ parseGroups doc ∧
    (mkGroup (hdr, seg)).totalTasks = seg.countP (fun t => decide (t.depth = 2)) ∧
    (∀ g ∈ parseGroups doc,
      g.completedTasks ≤ g.totalTasks ∧ g.failedTasks ≤ g.totalTasks ∧
      ∀ sg ∈ g.subgroups,
        sg.completedTasks ≤ sg.totalTasks ∧ sg.failedTasks ≤ sg.totalTasks) ∧
    (∀ pre2 s2 post2 : List TaskLine, ∀ h2 : TaskLine,
      seg = pre2 ++ h2 :: (s2 ++ post2) → h2.depth = 2 → (∀ t ∈ s2, t.depth ≠ 2) →
      (∀ x ∈ post2.head?, x.depth = 2) →
      mkSubgroup (h2, s2) ∈ (mkGroup (hdr, seg)).subgroups ∧
      (mkSubgroup (h2, s2)).totalTasks = s2.countP (fun t => decide (t.depth = 3))) := by
  refine ⟨?_, ?_, ?_, ?_⟩
  · rw [parseGroups, hdecomp]
    exact List.mem_map_of_mem mkGroup
      (segByDepth_mem_of_decomp 1 pre seg post hdr hhdr hseg hpost)
  · simp only [mkGroup]
    exact segByDepth_snd_length 2 seg
  · intro g hg
    rw [parseGroups] at hg
    obtain ⟨hs, hmem, rfl⟩ := List.mem_map.mp hg
    refine ⟨?_, ?_, ?_⟩
    · simp only [mkGroup]
      calc ((segByDepth 2 hs.2).2.map effStatus).countP (fun s => decide (s = .completed)) ≤
            ((segByDepth 2 hs.2).2.map effStatus).length := List.countP_le_length _
        _ = (segByDepth 2 hs.2).2.length := List.length_map _ _
    · simp only [mkGroup]
      calc ((segByDepth 2 hs.2).2.map effStatus).countP (fun s => decide (s = .failed)) ≤
            ((segByDepth 2 hs.2).2.map effStatus).length := List.countP_le_length _
        _ = (segByDepth 2 hs.2).2.length := List.length_map _ _
    · intro sg hsg
      simp only [mkGroup, List.mem_map] at hsg
      obtain ⟨hs2, hmem2, rfl⟩ := hsg
      constructor
      · simp only [mkSubgroup]
        calc ((childrenOf hs2.2).map (fun t => statusOfChar t.marker)).countP
              (fun s => decide (s = .completed)) ≤
            ((childrenOf hs2.2).map (fun t => statusOfChar t.marker)).length :=
              List.countP_le_length _
          _ = (childrenOf hs2.2).length := List.length_map _ _
      · simp only [mkSubgroup]
        calc ((childrenOf hs2.2).map (fun t => statusOfChar t.marker)).countP
              (fun s => decide (s = .failed)) ≤
            ((childrenOf hs2.2).map (fun t => statusOfChar t.marker)).length :=
              List.countP_le_length _
          _ = (childrenOf hs2.2).length := List.length_map _ _
  · intro pre2 s2 post2 h2 hseq hd2 hs2ne hpost2
    constructor
    · simp only [mkGroup]
      apply List.mem_map_of_mem mkSubgroup
      rw [hseq]
      exact segByDepth_mem_of_decomp 2 pre2 s2 post2 h2 hd2 hs2ne hpost2
    · simp only [mkSubgroup, childrenOf]
      exact (List.countP_eq_length_filter _ _).symm

/-- Witness for C7 on `docOneFailure`: its single group counts one depth-2
line, its single subgroup counts two depth-3 lines, and the parsed group
satisfies the count bounds. -/
theorem totalTasks_counting_witness :
    taskLines docOneFailure = [] ++ tokG :: ([tokS, tokA '!', tokB ' '] ++ []) ∧
    (mkGroup (tokG, [tokS, tokA '!', tokB ' '])).totalTasks =
      ([tokS, tokA '!', tokB ' ']).countP (fun t => decide (t.depth = 2)) ∧
    (mkSubgroup (tokS, [tokA '!', tokB ' '])).totalTasks =
      ([tokA '!', tokB ' ']).countP (fun t => decide (t.depth = 3)) :=
  ⟨by decide,
    (totalTasks_counting docOneFailure [] [tokS, tokA '!', tokB ' '] [] tokG (by decide)
      (by decide) (by decide) (by intro x hx; exact absurd hx (Option.not_mem_none x))).2.1,
    ((totalTasks_counting docOneFailure [] [tokS, tokA '!', tokB ' '] [] tokG (by decide)
      (by decide) (by decide) (by intro x hx; exact absurd hx (Option.not_mem_none x))).2.2.2
      [] [tokA '!', tokB ' '] [] tokS rfl (by decide) (by decide)
      (by intro x hx; exact absurd hx (Option.not_mem_none x))).2⟩


end Sdd
